import Mathlib

/-!
Shallow embedding of the headloop primer design package
(`Headloop_package.py`), which designs headloop tags for headloop
suppression PCR: it extracts candidate tag windows from a guide context
at three frame offsets, scores each by melting-temperature (Tm)
difference against the appropriate primer, selects the best candidate
per role, and assembles tagged primers with a diagnostic annotation.

The external melting-temperature function (`melting.temp`, called with
fixed reagent concentrations) and anything downstream of it are modelled
as a parameter `temp : TmFun`; a Python exception raised by it is an
`Except.error`.  Biopython's `Seq.reverse_complement` is modelled by
`reverseComplement`.  Python's `None`-returning validation failures and
uncaught exceptions are distinguished by the `DesignResult` type.
-/

namespace Headloop

instance {ε : Type u} {α : Type v} [DecidableEq ε] [DecidableEq α] :
    DecidableEq (Except ε α)
  | .error e1, .error e2 =>
      if h : e1 = e2 then .isTrue (by rw [h]) else .isFalse (by simp [h])
  | .error _, .ok _ => .isFalse (by simp)
  | .ok _, .error _ => .isFalse (by simp)
  | .ok a1, .ok a2 =>
      if h : a1 = a2 then .isTrue (by rw [h]) else .isFalse (by simp [h])

/-- The external melting-temperature function: from a nucleotide sequence
to a temperature, or a failure (a raised Python exception).  The fixed
reagent parameters (DNA_c = 1000, Mg_c = 1.5, dNTPs_c = 0.2) are the same
at every call site, so they are absorbed into the function itself. -/
def TmFun : Type := List Char → Except String ℚ

/-- Watson–Crick complement of one nucleotide character, upper- and
lower-case, leaving any other character unchanged. -/
def complementChar (ch : Char) : Char :=
  if ch = 'A' then 'T'
  else if ch = 'T' then 'A'
  else if ch = 'C' then 'G'
  else if ch = 'G' then 'C'
  else if ch = 'a' then 't'
  else if ch = 't' then 'a'
  else if ch = 'c' then 'g'
  else if ch = 'g' then 'c'
  else ch

/-- `Seq.reverse_complement`: complement each base and reverse. -/
def reverseComplement (s : List Char) : List Char :=
  (s.map complementChar).reverse

/-- Python slice `s[a:b]` for `0 ≤ a ≤ b` (clamped at the end of the
list, as in Python). -/
def pySlice (s : List Char) (a b : Nat) : List Char :=
  (s.drop a).take (b - a)

/-- The window `context[frame : frame + 20]` used for a
reverse-complement candidate (line 113 of the source). -/
def rcWindow (context : List Char) (frame : Nat) : List Char :=
  pySlice context frame (frame + 20)

/-- The window `context[frame + 12 : frame + 32]` used for an offset
candidate (line 125 of the source). -/
def offWindow (context : List Char) (frame : Nat) : List Char :=
  pySlice context (frame + 12) (frame + 32)

/-- A candidate tag: the Python tuple
`(sequence, Tm, Tm difference, frame, flag)` built at lines 121/132. -/
structure Candidate where
  seq : List Char
  tm : ℚ
  diff : ℚ
  frame : Nat
  flag : Nat
deriving DecidableEq, Repr, Inhabited

/-- One iteration of the `while frame < 3` loop (lines 110–134): build
the reverse-complement candidate and the offset candidate for a frame
offset, calling `temp` on each extracted sequence.  `mtI` and `mtJ` are
`MT[i]` and `MT[j]`, the Tm targets for the two candidate kinds. -/
def mkCandidates (temp : TmFun) (context : List Char) (mtI mtJ : ℚ)
    (frame : Nat) : Except String (Candidate × Candidate) := do
  let rc := reverseComplement (rcWindow context frame)
  let rc_temp_tm ← temp rc
  let rc_temp_diff := |mtI - rc_temp_tm|
  let rc_flag : Nat := if rc_temp_diff < 3 then 0 else 1
  let offset := offWindow context frame
  let off_temp_tm ← temp offset
  let off_temp_diff := |mtJ - off_temp_tm|
  let off_flag : Nat := if off_temp_diff < 3 then 0 else 1
  pure (⟨rc, rc_temp_tm, rc_temp_diff, frame, rc_flag⟩,
        ⟨offset, off_temp_tm, off_temp_diff, frame, off_flag⟩)

/-- The full candidate-generation loop: frames 0, 1, 2 in order,
accumulating `master_rc` and `master_offset` (lines 104–134). -/
def masterLists (temp : TmFun) (context : List Char) (mtI mtJ : ℚ) :
    Except String (List Candidate × List Candidate) := do
  let (rc0, off0) ← mkCandidates temp context mtI mtJ 0
  let (rc1, off1) ← mkCandidates temp context mtI mtJ 1
  let (rc2, off2) ← mkCandidates temp context mtI mtJ 2
  pure ([rc0, rc1, rc2], [off0, off1, off2])

/-- Lexicographic comparison of Python sort keys `(ℚ, ℤ)`. -/
def lexLe (p q : ℚ × ℤ) : Bool :=
  decide (p.1 < q.1) || (decide (p.1 = q.1) && decide (p.2 ≤ q.2))

/-- Sort key for `master_rc.sort(key = lambda x: (x[2], x[3]))`. -/
def rcKey (x : Candidate) : ℚ × ℤ := (x.diff, (x.frame : ℤ))

/-- Sort key for `master_offset.sort(key = lambda x: (x[2], -x[3]))`. -/
def offKey (x : Candidate) : ℚ × ℤ := (x.diff, -(x.frame : ℤ))

/-- Candidate order for the reverse-complement list. -/
def rcLe (x y : Candidate) : Bool := lexLe (rcKey x) (rcKey y)

/-- Candidate order for the offset list. -/
def offLe (x y : Candidate) : Bool := lexLe (offKey x) (offKey y)

/-- Stable insertion into a sorted list (an element goes before the
first strictly-greater element), matching the placement a stable sort
by a total key order gives. -/
def insertBy {α : Type u} (le : α → α → Bool) (x : α) : List α → List α
  | [] => [x]
  | y :: ys => if le x y then x :: y :: ys else y :: insertBy le x ys

/-- Stable insertion sort, modelling Python's stable `list.sort(key=…)`. -/
def sortBy {α : Type u} (le : α → α → Bool) : List α → List α
  | [] => []
  | x :: xs => insertBy le x (sortBy le xs)

/-- `master_rc[0]` after `master_rc.sort(key = lambda x: (x[2], x[3]))`
(line 137). -/
def winnerRC (master_rc : List Candidate) : Candidate :=
  (sortBy rcLe master_rc).headI

/-- `master_offset[0]` after
`master_offset.sort(key = lambda x: (x[2], -x[3]))` (line 138). -/
def winnerOff (master_offset : List Candidate) : Candidate :=
  (sortBy offLe master_offset).headI

/-- A Biopython `SeqRecord` restricted to the fields the program uses. -/
structure SeqRecord where
  seq : List Char
  id : String
  description : String
deriving DecidableEq, Repr

/-- The message printed when orientation is invalid (line 70). -/
def orient_error : String := "Orientation not correctly specified.\n"

/-- The message printed when the context is too short (line 90). -/
def size_error : String := "Guide and context is not big enough for design"

/-- The pass annotation (lines 150, 156, 168, 174). -/
def pass_desc : String := "Tm difference < 3°C"

/-- The sense-side warning annotation (lines 148, 166). -/
def warn_sense : String :=
  "WARNING: Could not optimise sense headloop tag (Tm difference > 3°C)"

/-- The antisense-side warning annotation (lines 154, 172). -/
def warn_antisense : String :=
  "WARNING: Could not optimise antisense headloop tag (Tm difference > 3°C)"

/-- Concatenation of the winning tags onto the primers and construction
of the two `SeqRecord`s, by orientation (lines 141–176). -/
def assemble (sense antisense : List Char) (orientation : String)
    (bestRC bestOff : Candidate) : SeqRecord × SeqRecord :=
  if orientation = "sense" then
    (⟨bestRC.seq ++ sense, "Sense HL",
        if bestRC.flag = 1 then warn_sense else pass_desc⟩,
     ⟨bestOff.seq ++ antisense, "Antisense HL",
        if bestOff.flag = 1 then warn_antisense else pass_desc⟩)
  else
    (⟨bestOff.seq ++ sense, "Sense HL",
        if bestOff.flag = 1 then warn_sense else pass_desc⟩,
     ⟨bestRC.seq ++ antisense, "Antisense HL",
        if bestRC.flag = 1 then warn_antisense else pass_desc⟩)

/-- The computation performed after validation succeeds (lines 96–176):
primer Tms, `MT[i]`/`MT[j]` selection (`i = 0, j = 1` for "sense",
`i = 1, j = 0` for "antisense"), candidate generation, sorting,
selection and assembly.  An `Except.error` is an uncaught exception
from `temp`. -/
def designE (temp : TmFun)
    (sense_oligo antisense_oligo guide_context : List Char)
    (orientation : String) : Except String (SeqRecord × SeqRecord) := do
  let senseTm ← temp sense_oligo
  let antisenseTm ← temp antisense_oligo
  let mtI := if orientation = "sense" then senseTm else antisenseTm
  let mtJ := if orientation = "sense" then antisenseTm else senseTm
  let (master_rc, master_offset) ← masterLists temp guide_context mtI mtJ
  pure (assemble sense_oligo antisense_oligo orientation
          (winnerRC master_rc) (winnerOff master_offset))

/-- Result of a call to `design`: `printedNone msg` models printing
`msg` and returning Python `None`; `raised e` models an exception from
`temp` propagating uncaught out of `design`; `ok` is the normal return
of the pair `(sense_hl, antisense_hl)`. -/
inductive DesignResult where
  | printedNone (msg : String)
  | raised (e : String)
  | ok (sense_hl antisense_hl : SeqRecord)
deriving DecidableEq, Repr

/-- The entry point `design` (lines 67–176): orientation validation
first, then the context length check, then the Tm computations and the
tag design. -/
def design (temp : TmFun)
    (sense_oligo antisense_oligo guide_context : List Char)
    (orientation : String) : DesignResult :=
  if orientation = "sense" ∨ orientation = "antisense" then
    if guide_context.length < 35 then DesignResult.printedNone size_error
    else
      match designE temp sense_oligo antisense_oligo guide_context
          orientation with
      | Except.error e => DesignResult.raised e
      | Except.ok (sh, ah) => DesignResult.ok sh ah
  else DesignResult.printedNone orient_error

/-- The sequences `design` hands to the external Tm function, in
evaluation order: the sense primer, the antisense primer (lines
99–101), then per frame offset 0, 1, 2 the reverse-complement
candidate (line 115) followed by the offset candidate (line 126). -/
def evalSeqs (sense_oligo antisense_oligo guide_context : List Char) :
    List (List Char) :=
  [sense_oligo, antisense_oligo,
   reverseComplement (rcWindow guide_context 0), offWindow guide_context 0,
   reverseComplement (rcWindow guide_context 1), offWindow guide_context 1,
   reverseComplement (rcWindow guide_context 2), offWindow guide_context 2]

/-! ### Concrete instances used to exercise the embedding -/

/-- A total melting-temperature function returning 50 °C everywhere. -/
def temp0 : TmFun := fun _ => Except.ok 50

/-- A melting-temperature function that always fails. -/
def tmFailAll : TmFun := fun _ => Except.error "melting.temp raised"

/-- A melting-temperature function succeeding on the (length-1) primers
and failing on every extracted 20-base window. -/
def tempSel : TmFun := fun x =>
  if x.length = 1 then Except.ok 50 else Except.error "melting.temp raised"

/-- A guide context of exactly the minimum accepted length, 35. -/
def ctx35 : List Char := List.replicate 35 'A'

/-- The reverse-complement candidate list `masterLists` produces on
`ctx35` with `temp0` and both Tm targets 50. -/
def mrcW : List Candidate :=
  [⟨List.replicate 20 'T', 50, 0, 0, 0⟩,
   ⟨List.replicate 20 'T', 50, 0, 1, 0⟩,
   ⟨List.replicate 20 'T', 50, 0, 2, 0⟩]

/-- The offset candidate list `masterLists` produces on `ctx35` with
`temp0` and both Tm targets 50. -/
def moffW : List Candidate :=
  [⟨List.replicate 20 'A', 50, 0, 0, 0⟩,
   ⟨List.replicate 20 'A', 50, 0, 1, 0⟩,
   ⟨List.replicate 20 'A', 50, 0, 2, 0⟩]

/-! ### Inversion and totality lemmas for the monadic stages -/

theorem mkCandidates_ok_inv {temp : TmFun} {context : List Char}
    {mtI mtJ : ℚ} {frame : Nat} {rcC offC : Candidate}
    (h : mkCandidates temp context mtI mtJ frame = Except.ok (rcC, offC)) :
    ∃ tr toff,
      temp (reverseComplement (rcWindow context frame)) = Except.ok tr ∧
      temp (offWindow context frame) = Except.ok toff ∧
      rcC = ⟨reverseComplement (rcWindow context frame), tr, |mtI - tr|,
              frame, if |mtI - tr| < 3 then 0 else 1⟩ ∧
      offC = ⟨offWindow context frame, toff, |mtJ - toff|,
              frame, if |mtJ - toff| < 3 then 0 else 1⟩ := by
  unfold mkCandidates at h
  cases htr : temp (reverseComplement (rcWindow context frame)) with
  | error e => simp [htr, Bind.bind, Except.bind] at h
  | ok tr =>
    cases hto : temp (offWindow context frame) with
    | error e => simp [htr, hto, Bind.bind, Except.bind] at h
    | ok toff =>
      simp [htr, hto, Bind.bind, Except.bind, pure, Except.pure] at h
      exact ⟨tr, toff, rfl, rfl, h.1.symm, h.2.symm⟩

theorem mkCandidates_total (temp : TmFun) (context : List Char)
    (mtI mtJ : ℚ) (frame : Nat)
    (htm : ∀ x, ∃ q, temp x = Except.ok q) :
    ∃ rcC offC,
      mkCandidates temp context mtI mtJ frame = Except.ok (rcC, offC) := by
  obtain ⟨tr, htr⟩ := htm (reverseComplement (rcWindow context frame))
  obtain ⟨toff, hto⟩ := htm (offWindow context frame)
  exact ⟨⟨reverseComplement (rcWindow context frame), tr, |mtI - tr|,
            frame, if |mtI - tr| < 3 then 0 else 1⟩,
         ⟨offWindow context frame, toff, |mtJ - toff|,
            frame, if |mtJ - toff| < 3 then 0 else 1⟩,
         by simp [mkCandidates, htr, hto, Bind.bind, Except.bind, pure,
                  Except.pure]⟩

theorem masterLists_ok_inv {temp : TmFun} {context : List Char}
    {mtI mtJ : ℚ} {mrc moff : List Candidate}
    (h : masterLists temp context mtI mtJ = Except.ok (mrc, moff)) :
    ∃ r0 o0 r1 o1 r2 o2,
      mkCandidates temp context mtI mtJ 0 = Except.ok (r0, o0) ∧
      mkCandidates temp context mtI mtJ 1 = Except.ok (r1, o1) ∧
      mkCandidates temp context mtI mtJ 2 = Except.ok (r2, o2) ∧
      mrc = [r0, r1, r2] ∧ moff = [o0, o1, o2] := by
  unfold masterLists at h
  cases h0 : mkCandidates temp context mtI mtJ 0 with
  | error e => simp [h0, Bind.bind, Except.bind] at h
  | ok p0 =>
    cases h1 : mkCandidates temp context mtI mtJ 1 with
    | error e => simp [h0, h1, Bind.bind, Except.bind] at h
    | ok p1 =>
      cases h2 : mkCandidates temp context mtI mtJ 2 with
      | error e => simp [h0, h1, h2, Bind.bind, Except.bind] at h
      | ok p2 =>
        obtain ⟨r0, o0⟩ := p0
        obtain ⟨r1, o1⟩ := p1
        obtain ⟨r2, o2⟩ := p2
        simp [h0, h1, h2, Bind.bind, Except.bind, pure, Except.pure] at h
        exact ⟨r0, o0, r1, o1, r2, o2, rfl, rfl, rfl, h.1.symm, h.2.symm⟩

theorem masterLists_total (temp : TmFun) (context : List Char)
    (mtI mtJ : ℚ) (htm : ∀ x, ∃ q, temp x = Except.ok q) :
    ∃ mrc moff, masterLists temp context mtI mtJ = Except.ok (mrc, moff) := by
  obtain ⟨r0, o0, h0⟩ := mkCandidates_total temp context mtI mtJ 0 htm
  obtain ⟨r1, o1, h1⟩ := mkCandidates_total temp context mtI mtJ 1 htm
  obtain ⟨r2, o2, h2⟩ := mkCandidates_total temp context mtI mtJ 2 htm
  exact ⟨[r0, r1, r2], [o0, o1, o2],
         by simp [masterLists, h0, h1, h2, Bind.bind, Except.bind, pure,
                  Except.pure]⟩

/-! ### The sort orders are total preorders -/

theorem lexLe_iff (p q : ℚ × ℤ) :
    lexLe p q = true ↔ p.1 < q.1 ∨ (p.1 = q.1 ∧ p.2 ≤ q.2) := by
  simp [lexLe]

theorem lexLe_total (p q : ℚ × ℤ) : lexLe p q = true ∨ lexLe q p = true := by
  rw [lexLe_iff, lexLe_iff]
  rcases lt_trichotomy p.1 q.1 with h | h | h
  · exact Or.inl (Or.inl h)
  · rcases le_total p.2 q.2 with h2 | h2
    · exact Or.inl (Or.inr ⟨h, h2⟩)
    · exact Or.inr (Or.inr ⟨h.symm, h2⟩)
  · exact Or.inr (Or.inl h)

theorem lexLe_trans (p q r : ℚ × ℤ) (h1 : lexLe p q = true)
    (h2 : lexLe q r = true) : lexLe p r = true := by
  rw [lexLe_iff] at h1 h2 ⊢
  rcases h1 with h1 | ⟨h1e, h1z⟩ <;> rcases h2 with h2 | ⟨h2e, h2z⟩
  · exact Or.inl (h1.trans h2)
  · exact Or.inl (h2e ▸ h1)
  · exact Or.inl (h1e ▸ h2)
  · exact Or.inr ⟨h1e.trans h2e, le_trans h1z h2z⟩

theorem rcLe_total (x y : Candidate) : rcLe x y = true ∨ rcLe y x = true :=
  lexLe_total (rcKey x) (rcKey y)

theorem rcLe_trans (x y z : Candidate) (h1 : rcLe x y = true)
    (h2 : rcLe y z = true) : rcLe x z = true :=
  lexLe_trans (rcKey x) (rcKey y) (rcKey z) h1 h2

theorem offLe_total (x y : Candidate) : offLe x y = true ∨ offLe y x = true :=
  lexLe_total (offKey x) (offKey y)

theorem offLe_trans (x y z : Candidate) (h1 : offLe x y = true)
    (h2 : offLe y z = true) : offLe x z = true :=
  lexLe_trans (offKey x) (offKey y) (offKey z) h1 h2

/-- The composite order on reverse-complement candidates, spelled out:
smaller Tm difference first; on ties, smaller frame offset first. -/
theorem rcLe_iff (x y : Candidate) :
    rcLe x y = true ↔
      x.diff < y.diff ∨ (x.diff = y.diff ∧ x.frame ≤ y.frame) := by
  rw [rcLe, lexLe_iff]
  simp [rcKey]

/-- The composite order on offset candidates, spelled out: smaller Tm
difference first; on ties, larger frame offset first. -/
theorem offLe_iff (x y : Candidate) :
    offLe x y = true ↔
      x.diff < y.diff ∨ (x.diff = y.diff ∧ y.frame ≤ x.frame) := by
  rw [offLe, lexLe_iff]
  simp [offKey]

/-! ### The head of the sorted three-element list is a minimum -/

theorem sortBy_three_head_min {α : Type u} [Inhabited α] (le : α → α → Bool)
    (htot : ∀ x y, le x y = true ∨ le y x = true)
    (htrans : ∀ x y z, le x y = true → le y z = true → le x z = true)
    (a b c : α) :
    (sortBy le [a, b, c]).headI ∈ [a, b, c] ∧
      ∀ y ∈ [a, b, c], le ((sortBy le [a, b, c]).headI) y = true := by
  have haa : le a a = true := (htot a a).elim id id
  have hbb : le b b = true := (htot b b).elim id id
  have hcc : le c c = true := (htot c c).elim id id
  by_cases hbc : le b c = true
  · by_cases hab : le a b = true
    · have hac : le a c = true := htrans a b c hab hbc
      simp [sortBy, insertBy, hbc, hab, haa, hac]
    · have hba : le b a = true := (htot a b).resolve_left hab
      rw [Bool.not_eq_true] at hab
      simp [sortBy, insertBy, hbc, hab, hba, hbb]
  · have hcb : le c b = true := (htot b c).resolve_left hbc
    rw [Bool.not_eq_true] at hbc
    by_cases hac : le a c = true
    · have hab : le a b = true := htrans a c b hac hcb
      simp [sortBy, insertBy, hbc, hac, haa, hab]
    · have hca : le c a = true := (htot a c).resolve_left hac
      rw [Bool.not_eq_true] at hac
      simp [sortBy, insertBy, hbc, hac, hca, hcb, hcc]

theorem winnerRC_min (r0 r1 r2 : Candidate) :
    winnerRC [r0, r1, r2] ∈ [r0, r1, r2] ∧
      ∀ y ∈ [r0, r1, r2], rcLe (winnerRC [r0, r1, r2]) y = true :=
  sortBy_three_head_min rcLe rcLe_total rcLe_trans r0 r1 r2

theorem winnerOff_min (o0 o1 o2 : Candidate) :
    winnerOff [o0, o1, o2] ∈ [o0, o1, o2] ∧
      ∀ y ∈ [o0, o1, o2], offLe (winnerOff [o0, o1, o2]) y = true :=
  sortBy_three_head_min offLe offLe_total offLe_trans o0 o1 o2

/-! ### Computation lemmas for `design` -/

theorem design_eq_ok (temp : TmFun) (s a c : List Char) (o : String)
    (ho : o = "sense" ∨ o = "antisense") (hlen : ¬ c.length < 35)
    {ts ta : ℚ} (hs : temp s = Except.ok ts) (ha : temp a = Except.ok ta)
    {mrc moff : List Candidate}
    (hm : masterLists temp c (if o = "sense" then ts else ta)
            (if o = "sense" then ta else ts) = Except.ok (mrc, moff)) :
    design temp s a c o =
      DesignResult.ok (assemble s a o (winnerRC mrc) (winnerOff moff)).1
        (assemble s a o (winnerRC mrc) (winnerOff moff)).2 := by
  rw [design, if_pos ho, if_neg hlen]
  simp [designE, hs, ha, hm, Bind.bind, Except.bind, pure, Except.pure]

/-! ### Window and candidate-shape lemmas -/

theorem reverseComplement_length (s : List Char) :
    (reverseComplement s).length = s.length := by
  simp [reverseComplement]

theorem rcWindow_length (c : List Char) (f : Nat) (h : f + 20 ≤ c.length) :
    (rcWindow c f).length = 20 := by
  simp [rcWindow, pySlice]
  omega

theorem offWindow_length (c : List Char) (f : Nat) (h : f + 32 ≤ c.length) :
    (offWindow c f).length = 20 := by
  simp [offWindow, pySlice]
  omega

theorem masterLists_flag {temp : TmFun} {c : List Char} {mtI mtJ : ℚ}
    {mrc moff : List Candidate}
    (hm : masterLists temp c mtI mtJ = Except.ok (mrc, moff)) :
    (∀ x ∈ mrc, x.flag = if x.diff < 3 then 0 else 1) ∧
    (∀ x ∈ moff, x.flag = if x.diff < 3 then 0 else 1) := by
  obtain ⟨r0, o0, r1, o1, r2, o2, h0, h1, h2, hrc, hoff⟩ :=
    masterLists_ok_inv hm
  subst hrc hoff
  obtain ⟨t0, u0, _, _, hr0, ho0⟩ := mkCandidates_ok_inv h0
  obtain ⟨t1, u1, _, _, hr1, ho1⟩ := mkCandidates_ok_inv h1
  obtain ⟨t2, u2, _, _, hr2, ho2⟩ := mkCandidates_ok_inv h2
  subst hr0 ho0 hr1 ho1 hr2 ho2
  constructor <;> intro x hx <;> simp at hx <;>
    rcases hx with h | h | h <;> subst h <;> simp

theorem masterLists_seq_length {temp : TmFun} {c : List Char} {mtI mtJ : ℚ}
    {mrc moff : List Candidate}
    (hm : masterLists temp c mtI mtJ = Except.ok (mrc, moff))
    (hlen : 35 ≤ c.length) :
    (∀ x ∈ mrc, x.seq.length = 20) ∧ (∀ x ∈ moff, x.seq.length = 20) := by
  obtain ⟨r0, o0, r1, o1, r2, o2, h0, h1, h2, hrc, hoff⟩ :=
    masterLists_ok_inv hm
  subst hrc hoff
  obtain ⟨t0, u0, _, _, hr0, ho0⟩ := mkCandidates_ok_inv h0
  obtain ⟨t1, u1, _, _, hr1, ho1⟩ := mkCandidates_ok_inv h1
  obtain ⟨t2, u2, _, _, hr2, ho2⟩ := mkCandidates_ok_inv h2
  subst hr0 ho0 hr1 ho1 hr2 ho2
  refine ⟨fun x hx => ?_, fun x hx => ?_⟩ <;> simp at hx <;>
    rcases hx with h | h | h <;> subst h
  · simpa [reverseComplement_length] using rcWindow_length c 0 (by omega)
  · simpa [reverseComplement_length] using rcWindow_length c 1 (by omega)
  · simpa [reverseComplement_length] using rcWindow_length c 2 (by omega)
  · exact offWindow_length c 0 (by omega)
  · exact offWindow_length c 1 (by omega)
  · exact offWindow_length c 2 (by omega)

/-! ### Assembly lemmas -/

theorem assemble_sense (s a : List Char) (bestRC bestOff : Candidate) :
    assemble s a "sense" bestRC bestOff =
      (⟨bestRC.seq ++ s, "Sense HL",
          if bestRC.flag = 1 then warn_sense else pass_desc⟩,
       ⟨bestOff.seq ++ a, "Antisense HL",
          if bestOff.flag = 1 then warn_antisense else pass_desc⟩) := by
  simp [assemble]

theorem assemble_not_sense (s a : List Char) (o : String) (hno : o ≠ "sense")
    (bestRC bestOff : Candidate) :
    assemble s a o bestRC bestOff =
      (⟨bestOff.seq ++ s, "Sense HL",
          if bestOff.flag = 1 then warn_sense else pass_desc⟩,
       ⟨bestRC.seq ++ a, "Antisense HL",
          if bestRC.flag = 1 then warn_antisense else pass_desc⟩) := by
  rw [assemble, if_neg hno]

theorem masterLists_temp0 :
    masterLists temp0 ctx35 50 50 = Except.ok (mrcW, moffW) := by
  have hrc0 : reverseComplement (rcWindow ctx35 0) = List.replicate 20 'T' := by
    decide
  have hrc1 : reverseComplement (rcWindow ctx35 1) = List.replicate 20 'T' := by
    decide
  have hrc2 : reverseComplement (rcWindow ctx35 2) = List.replicate 20 'T' := by
    decide
  have hof0 : offWindow ctx35 0 = List.replicate 20 'A' := by decide
  have hof1 : offWindow ctx35 1 = List.replicate 20 'A' := by decide
  have hof2 : offWindow ctx35 2 = List.replicate 20 'A' := by decide
  have habs : |(50 : ℚ) - 50| = 0 := by norm_num
  simp [masterLists, mkCandidates, temp0, Bind.bind, Except.bind, pure,
        Except.pure, hrc0, hrc1, hrc2, hof0, hof1, hof2, habs, mrcW, moffW]

/-- A candidate flag of 0/1 recording `diff < 3` turns the
warning-or-pass choice `flag = 1` into a choice on `diff < 3`. -/
theorem flag_description (d : ℚ) (flag : Nat) (w p : String)
    (hf : flag = if d < 3 then 0 else 1) :
    (if flag = 1 then w else p) = if d < 3 then p else w := by
  subst hf
  by_cases hd : d < 3 <;> simp [hd]

/-! ### Claim theorems -/

/-- C2: the generation loop produces exactly 3 candidates in each set:
for each frame offset f ∈ {0,1,2} exactly one reverse-complement
candidate whose sequence is the reverse complement of
`context[f : f+20]`, and exactly one offset candidate whose sequence is
`context[f+12 : f+32]`, not reverse-complemented. -/
theorem design_candidate_windows (temp : TmFun) (c : List Char)
    (mtI mtJ : ℚ) {mrc moff : List Candidate}
    (hm : masterLists temp c mtI mtJ = Except.ok (mrc, moff)) :
    mrc.length = 3 ∧ moff.length = 3 ∧
    mrc.map Candidate.frame = [0, 1, 2] ∧
    moff.map Candidate.frame = [0, 1, 2] ∧
    mrc.map Candidate.seq =
      [reverseComplement (rcWindow c 0), reverseComplement (rcWindow c 1),
       reverseComplement (rcWindow c 2)] ∧
    moff.map Candidate.seq =
      [offWindow c 0, offWindow c 1, offWindow c 2] := by
  obtain ⟨r0, o0, r1, o1, r2, o2, h0, h1, h2, hrc, hoff⟩ :=
    masterLists_ok_inv hm
  subst hrc hoff
  obtain ⟨t0, u0, _, _, hr0, ho0⟩ := mkCandidates_ok_inv h0
  obtain ⟨t1, u1, _, _, hr1, ho1⟩ := mkCandidates_ok_inv h1
  obtain ⟨t2, u2, _, _, hr2, ho2⟩ := mkCandidates_ok_inv h2
  subst hr0 ho0 hr1 ho1 hr2 ho2
  simp

/-- Witness for C2, on the concrete run recorded by
`masterLists_temp0`. -/
theorem design_candidate_windows_witness :
    mrcW.length = 3 ∧ moffW.length = 3 ∧
    mrcW.map Candidate.frame = [0, 1, 2] ∧
    moffW.map Candidate.frame = [0, 1, 2] ∧
    mrcW.map Candidate.seq =
      [reverseComplement (rcWindow ctx35 0),
       reverseComplement (rcWindow ctx35 1),
       reverseComplement (rcWindow ctx35 2)] ∧
    moffW.map Candidate.seq =
      [offWindow ctx35 0, offWindow ctx35 1, offWindow ctx35 2] :=
  design_candidate_windows temp0 ctx35 50 50 masterLists_temp0

/-- C4: every reverse-complement candidate's Tm difference is taken
against the sense primer's Tm when orientation = "sense" and against
the antisense primer's Tm when orientation = "antisense" (`MT[i]`),
while every offset candidate is scored against the other primer's Tm
(`MT[j]`). -/
theorem design_scoring_targets (temp : TmFun) (s a c : List Char)
    (o : String) (_ho : o = "sense" ∨ o = "antisense") {ts ta : ℚ}
    (_hs : temp s = Except.ok ts) (_ha : temp a = Except.ok ta)
    {mrc moff : List Candidate}
    (hm : masterLists temp c (if o = "sense" then ts else ta)
            (if o = "sense" then ta else ts) = Except.ok (mrc, moff)) :
    (∀ x ∈ mrc, x.diff = |(if o = "sense" then ts else ta) - x.tm|) ∧
    (∀ x ∈ moff, x.diff = |(if o = "sense" then ta else ts) - x.tm|) := by
  obtain ⟨r0, o0, r1, o1, r2, o2, h0, h1, h2, hrc, hoff⟩ :=
    masterLists_ok_inv hm
  subst hrc hoff
  obtain ⟨t0, u0, _, _, hr0, ho0⟩ := mkCandidates_ok_inv h0
  obtain ⟨t1, u1, _, _, hr1, ho1⟩ := mkCandidates_ok_inv h1
  obtain ⟨t2, u2, _, _, hr2, ho2⟩ := mkCandidates_ok_inv h2
  subst hr0 ho0 hr1 ho1 hr2 ho2
  refine ⟨fun x hx => ?_, fun x hx => ?_⟩ <;> simp at hx <;>
    rcases hx with h | h | h <;> subst h <;> rfl

/-- Witness for C4, on the concrete run recorded by
`masterLists_temp0` (both targets are 50 there). -/
theorem design_scoring_targets_witness :
    (∀ x ∈ mrcW, x.diff = |(50 : ℚ) - x.tm|) ∧
    (∀ x ∈ moffW, x.diff = |(50 : ℚ) - x.tm|) :=
  design_scoring_targets temp0 (String.toList "A") (String.toList "G")
    ctx35 "sense" (Or.inl rfl) rfl rfl masterLists_temp0

/-- C1: the winning reverse-complement candidate (`master_rc[0]` after
sorting) belongs to its candidate set and has minimal Tm difference,
preferring the smaller frame offset on ties; the winning offset
candidate likewise but preferring the larger frame offset on ties; and
the tag concatenated onto each output primer is the winner's
sequence. -/
theorem design_winner_selection (temp : TmFun) (s a c : List Char)
    (o : String) (ho : o = "sense" ∨ o = "antisense")
    (hlen : ¬ c.length < 35) {ts ta : ℚ}
    (hs : temp s = Except.ok ts) (ha : temp a = Except.ok ta)
    {mrc moff : List Candidate}
    (hm : masterLists temp c (if o = "sense" then ts else ta)
            (if o = "sense" then ta else ts) = Except.ok (mrc, moff)) :
    (winnerRC mrc ∈ mrc ∧
      ∀ y ∈ mrc, (winnerRC mrc).diff < y.diff ∨
        ((winnerRC mrc).diff = y.diff ∧ (winnerRC mrc).frame ≤ y.frame)) ∧
    (winnerOff moff ∈ moff ∧
      ∀ y ∈ moff, (winnerOff moff).diff < y.diff ∨
        ((winnerOff moff).diff = y.diff ∧
          y.frame ≤ (winnerOff moff).frame)) ∧
    (∃ sense_hl antisense_hl,
      design temp s a c o = DesignResult.ok sense_hl antisense_hl ∧
      sense_hl.seq =
        (if o = "sense" then winnerRC mrc else winnerOff moff).seq ++ s ∧
      antisense_hl.seq =
        (if o = "sense" then winnerOff moff else winnerRC mrc).seq ++ a) := by
  obtain ⟨r0, o0, r1, o1, r2, o2, h0, h1, h2, hrc, hoff⟩ :=
    masterLists_ok_inv hm
  subst hrc hoff
  obtain ⟨hmem, hmin⟩ := winnerRC_min r0 r1 r2
  obtain ⟨hmem2, hmin2⟩ := winnerOff_min o0 o1 o2
  refine ⟨⟨hmem, fun y hy => (rcLe_iff _ _).mp (hmin y hy)⟩,
          ⟨hmem2, fun y hy => (offLe_iff _ _).mp (hmin2 y hy)⟩, ?_⟩
  rcases ho with ho | ho <;> subst ho
  · refine ⟨_, _, design_eq_ok temp s a c "sense" (Or.inl rfl) hlen hs ha hm,
            ?_, ?_⟩
    · rw [if_pos rfl, assemble_sense]
    · rw [if_pos rfl, assemble_sense]
  · have hne : ¬(("antisense" : String) = "sense") := by decide
    refine ⟨_, _, design_eq_ok temp s a c "antisense" (Or.inr rfl) hlen hs ha
              hm, ?_, ?_⟩
    · rw [if_neg hne, assemble_not_sense s a "antisense" hne]
    · rw [if_neg hne, assemble_not_sense s a "antisense" hne]

/-- Witness for C1: constant Tm function, all-`A` context of length 35;
every Tm difference is 0, so the reverse-complement winner has frame 0
and the offset winner frame 2 (the tie-breaks). -/
theorem design_winner_selection_witness :
    (winnerRC mrcW ∈ mrcW ∧
      ∀ y ∈ mrcW, (winnerRC mrcW).diff < y.diff ∨
        ((winnerRC mrcW).diff = y.diff ∧
          (winnerRC mrcW).frame ≤ y.frame)) ∧
    (winnerOff moffW ∈ moffW ∧
      ∀ y ∈ moffW, (winnerOff moffW).diff < y.diff ∨
        ((winnerOff moffW).diff = y.diff ∧
          y.frame ≤ (winnerOff moffW).frame)) ∧
    (∃ sense_hl antisense_hl,
      design temp0 (String.toList "A") (String.toList "G") ctx35 "sense" =
        DesignResult.ok sense_hl antisense_hl ∧
      sense_hl.seq = (winnerRC mrcW).seq ++ String.toList "A" ∧
      antisense_hl.seq = (winnerOff moffW).seq ++ String.toList "G") :=
  design_winner_selection temp0 (String.toList "A") (String.toList "G")
    ctx35 "sense" (Or.inl rfl) (by decide) rfl rfl masterLists_temp0

/-- C3: with orientation "sense", the sense output is the winning
reverse-complement tag prepended to the sense primer and the antisense
output the winning offset tag prepended to the antisense primer; with
orientation "antisense" the tag roles are swapped. -/
theorem design_assembly_orientation (temp : TmFun) (s a c : List Char)
    (o : String) (ho : o = "sense" ∨ o = "antisense")
    (hlen : ¬ c.length < 35) {ts ta : ℚ}
    (hs : temp s = Except.ok ts) (ha : temp a = Except.ok ta)
    {mrc moff : List Candidate}
    (hm : masterLists temp c (if o = "sense" then ts else ta)
            (if o = "sense" then ta else ts) = Except.ok (mrc, moff)) :
    ∃ sense_hl antisense_hl,
      design temp s a c o = DesignResult.ok sense_hl antisense_hl ∧
      (o = "sense" →
        sense_hl.seq = (winnerRC mrc).seq ++ s ∧
        antisense_hl.seq = (winnerOff moff).seq ++ a) ∧
      (o = "antisense" →
        antisense_hl.seq = (winnerRC mrc).seq ++ a ∧
        sense_hl.seq = (winnerOff moff).seq ++ s) := by
  refine ⟨_, _, design_eq_ok temp s a c o ho hlen hs ha hm,
          fun hso => ?_, fun hao => ?_⟩
  · subst hso
    rw [assemble_sense]
    exact ⟨rfl, rfl⟩
  · subst hao
    rw [assemble_not_sense s a "antisense" (by decide)]
    exact ⟨rfl, rfl⟩

/-- Witness for C3, with orientation "antisense": the antisense output
gets the reverse-complement tag, the sense output the offset tag. -/
theorem design_assembly_orientation_witness :
    ∃ sense_hl antisense_hl,
      design temp0 (String.toList "A") (String.toList "G") ctx35
          "antisense" =
        DesignResult.ok sense_hl antisense_hl ∧
      antisense_hl.seq = (winnerRC mrcW).seq ++ String.toList "G" ∧
      sense_hl.seq = (winnerOff moffW).seq ++ String.toList "A" := by
  obtain ⟨sh, ah, hd, _, h2⟩ :=
    design_assembly_orientation temp0 (String.toList "A")
      (String.toList "G") ctx35 "antisense" (Or.inr rfl) (by decide)
      rfl rfl masterLists_temp0
  exact ⟨sh, ah, hd, (h2 rfl).1, (h2 rfl).2⟩

/-- C5: for either recognised orientation and any context of length at
least 35 (with the external Tm function succeeding everywhere),
`design` returns exactly one sense-tagged and one antisense-tagged
primer, each 20 bases longer than the corresponding input primer. -/
theorem design_output_lengths (temp : TmFun) (s a c : List Char)
    (o : String) (ho : o = "sense" ∨ o = "antisense")
    (hlen : 35 ≤ c.length) (htm : ∀ x, ∃ q, temp x = Except.ok q) :
    ∃ sense_hl antisense_hl,
      design temp s a c o = DesignResult.ok sense_hl antisense_hl ∧
      sense_hl.seq.length = s.length + 20 ∧
      antisense_hl.seq.length = a.length + 20 := by
  obtain ⟨ts, hs⟩ := htm s
  obtain ⟨ta, ha⟩ := htm a
  obtain ⟨mrc, moff, hm⟩ := masterLists_total temp c
    (if o = "sense" then ts else ta) (if o = "sense" then ta else ts) htm
  have hlen' : ¬ c.length < 35 := by omega
  obtain ⟨hL1, hL2⟩ := masterLists_seq_length hm hlen
  obtain ⟨r0, o0, r1, o1, r2, o2, h0, h1, h2, hrc, hoff⟩ :=
    masterLists_ok_inv hm
  subst hrc hoff
  have hw1 : (winnerRC [r0, r1, r2]).seq.length = 20 :=
    hL1 _ (winnerRC_min r0 r1 r2).1
  have hw2 : (winnerOff [o0, o1, o2]).seq.length = 20 :=
    hL2 _ (winnerOff_min o0 o1 o2).1
  rcases ho with ho | ho <;> subst ho
  · refine ⟨_, _, design_eq_ok temp s a c "sense" (Or.inl rfl) hlen' hs ha hm,
            ?_, ?_⟩
    · rw [assemble_sense]
      simp only [List.length_append, hw1]
      omega
    · rw [assemble_sense]
      simp only [List.length_append, hw2]
      omega
  · have hne : ¬(("antisense" : String) = "sense") := by decide
    refine ⟨_, _, design_eq_ok temp s a c "antisense" (Or.inr rfl) hlen' hs ha
              hm, ?_, ?_⟩
    · rw [assemble_not_sense s a "antisense" hne]
      simp only [List.length_append, hw2]
      omega
    · rw [assemble_not_sense s a "antisense" hne]
      simp only [List.length_append, hw1]
      omega

/-- Witness for C5 on length-1 primers and the length-35 context. -/
theorem design_output_lengths_witness :
    ∃ sense_hl antisense_hl,
      design temp0 (String.toList "A") (String.toList "G") ctx35 "sense" =
        DesignResult.ok sense_hl antisense_hl ∧
      sense_hl.seq.length = (String.toList "A").length + 20 ∧
      antisense_hl.seq.length = (String.toList "G").length + 20 :=
  design_output_lengths temp0 (String.toList "A") (String.toList "G")
    ctx35 "sense" (Or.inl rfl) (by decide) (fun _ => ⟨50, rfl⟩)

/-- C6: each returned record carries the flag of the tag concatenated
onto it, as the description: the pass string exactly when that winning
tag's Tm difference is < 3, otherwise the warning naming that primer's
side; and the role identifiers are "Sense HL" and "Antisense HL". -/
theorem design_annotations (temp : TmFun) (s a c : List Char)
    (o : String) (ho : o = "sense" ∨ o = "antisense")
    (hlen : ¬ c.length < 35) {ts ta : ℚ}
    (hs : temp s = Except.ok ts) (ha : temp a = Except.ok ta)
    {mrc moff : List Candidate}
    (hm : masterLists temp c (if o = "sense" then ts else ta)
            (if o = "sense" then ta else ts) = Except.ok (mrc, moff)) :
    ∃ sense_hl antisense_hl,
      design temp s a c o = DesignResult.ok sense_hl antisense_hl ∧
      sense_hl.id = "Sense HL" ∧ antisense_hl.id = "Antisense HL" ∧
      sense_hl.description =
        (if (if o = "sense" then winnerRC mrc else winnerOff moff).diff < 3
         then pass_desc else warn_sense) ∧
      antisense_hl.description =
        (if (if o = "sense" then winnerOff moff else winnerRC mrc).diff < 3
         then pass_desc else warn_antisense) := by
  have hfl := masterLists_flag hm
  obtain ⟨r0, o0, r1, o1, r2, o2, h0, h1, h2, hrc, hoff⟩ :=
    masterLists_ok_inv hm
  subst hrc hoff
  have hwf1 : (winnerRC [r0, r1, r2]).flag =
      if (winnerRC [r0, r1, r2]).diff < 3 then 0 else 1 :=
    hfl.1 _ (winnerRC_min r0 r1 r2).1
  have hwf2 : (winnerOff [o0, o1, o2]).flag =
      if (winnerOff [o0, o1, o2]).diff < 3 then 0 else 1 :=
    hfl.2 _ (winnerOff_min o0 o1 o2).1
  rcases ho with ho | ho <;> subst ho
  · refine ⟨_, _, design_eq_ok temp s a c "sense" (Or.inl rfl) hlen hs ha hm,
            ?_, ?_, ?_, ?_⟩
    · rw [assemble_sense]
    · rw [assemble_sense]
    · rw [if_pos rfl, assemble_sense]
      exact flag_description _ _ _ _ hwf1
    · rw [if_pos rfl, assemble_sense]
      exact flag_description _ _ _ _ hwf2
  · have hne : ¬(("antisense" : String) = "sense") := by decide
    refine ⟨_, _, design_eq_ok temp s a c "antisense" (Or.inr rfl) hlen hs ha
              hm, ?_, ?_, ?_, ?_⟩
    · rw [assemble_not_sense s a "antisense" hne]
    · rw [assemble_not_sense s a "antisense" hne]
    · rw [if_neg hne, assemble_not_sense s a "antisense" hne]
      exact flag_description _ _ _ _ hwf2
    · rw [if_neg hne, assemble_not_sense s a "antisense" hne]
      exact flag_description _ _ _ _ hwf1

/-- Witness for C6: on the all-tie concrete run all differences are 0,
so both outputs carry the pass annotation and their role ids. -/
theorem design_annotations_witness :
    ∃ sense_hl antisense_hl,
      design temp0 (String.toList "A") (String.toList "G") ctx35 "sense" =
        DesignResult.ok sense_hl antisense_hl ∧
      sense_hl.id = "Sense HL" ∧ antisense_hl.id = "Antisense HL" ∧
      sense_hl.description =
        (if (winnerRC mrcW).diff < 3 then pass_desc else warn_sense) ∧
      antisense_hl.description =
        (if (winnerOff moffW).diff < 3 then pass_desc else warn_antisense) :=
  design_annotations temp0 (String.toList "A") (String.toList "G") ctx35
    "sense" (Or.inl rfl) (by decide) rfl rfl masterLists_temp0

/-- C7: for a recognised orientation, `design` fails with the
context-too-short message exactly when the guide context is shorter
than 35, and a context of length exactly 35 succeeds, every candidate
window having its full 20 bases (no window reads past the end). -/
theorem design_contextTooShort_iff (temp : TmFun) (s a c : List Char)
    (o : String) (ho : o = "sense" ∨ o = "antisense")
    (htm : ∀ x, ∃ q, temp x = Except.ok q) :
    (design temp s a c o = DesignResult.printedNone size_error ↔
      c.length < 35) ∧
    (c.length = 35 →
      (∃ sense_hl antisense_hl,
        design temp s a c o = DesignResult.ok sense_hl antisense_hl) ∧
      ∀ f, f < 3 →
        (rcWindow c f).length = 20 ∧ (offWindow c f).length = 20) := by
  have hok : ¬ c.length < 35 →
      ∃ sense_hl antisense_hl,
        design temp s a c o = DesignResult.ok sense_hl antisense_hl := by
    intro hlen
    obtain ⟨ts, hs⟩ := htm s
    obtain ⟨ta, ha⟩ := htm a
    obtain ⟨mrc, moff, hm⟩ := masterLists_total temp c
      (if o = "sense" then ts else ta) (if o = "sense" then ta else ts) htm
    exact ⟨_, _, design_eq_ok temp s a c o ho hlen hs ha hm⟩
  refine ⟨⟨fun h => ?_, fun h => ?_⟩, fun h35 => ?_⟩
  · by_contra hlen
    obtain ⟨sh, ah, hd⟩ := hok hlen
    rw [hd] at h
    simp at h
  · rw [design, if_pos ho, if_pos h]
  · exact ⟨hok (by omega), fun f hf =>
      ⟨rcWindow_length c f (by omega), offWindow_length c f (by omega)⟩⟩

/-- Witness for C7 at concrete inputs: constant Tm function, length-35
context. -/
theorem design_contextTooShort_iff_witness :
    (design temp0 (String.toList "A") (String.toList "G") ctx35 "sense" =
        DesignResult.printedNone size_error ↔ ctx35.length < 35) ∧
    (ctx35.length = 35 →
      (∃ sense_hl antisense_hl,
        design temp0 (String.toList "A") (String.toList "G") ctx35 "sense" =
          DesignResult.ok sense_hl antisense_hl) ∧
      ∀ f, f < 3 →
        (rcWindow ctx35 f).length = 20 ∧ (offWindow ctx35 f).length = 20) :=
  design_contextTooShort_iff temp0 (String.toList "A") (String.toList "G")
    ctx35 "sense" (Or.inl rfl) (fun _ => ⟨50, rfl⟩)

/-- C8: an unrecognised orientation makes `design` fail with the
orientation message, and the result does not depend on the external Tm
function at all (so the failure is reported before any Tm call). -/
theorem design_invalidOrientation (temp temp2 : TmFun) (s a c : List Char)
    (o : String) (h1 : o ≠ "sense") (h2 : o ≠ "antisense") :
    design temp s a c o = DesignResult.printedNone orient_error ∧
    design temp s a c o = design temp2 s a c o := by
  have key : ∀ t : TmFun,
      design t s a c o = DesignResult.printedNone orient_error := by
    intro t
    rw [design, if_neg]
    rintro (h | h)
    · exact h1 h
    · exact h2 h
  exact ⟨key temp, (key temp).trans (key temp2).symm⟩

/-- Witness for C8: orientation "sideways", compared across a total and
an always-failing Tm function. -/
theorem design_invalidOrientation_witness :
    design temp0 (String.toList "A") (String.toList "G") ctx35 "sideways" =
      DesignResult.printedNone orient_error ∧
    design temp0 (String.toList "A") (String.toList "G") ctx35 "sideways" =
      design tmFailAll (String.toList "A") (String.toList "G") ctx35
        "sideways" :=
  design_invalidOrientation temp0 tmFailAll (String.toList "A")
    (String.toList "G") ctx35 "sideways" (by decide) (by decide)

/-- Counterexample to C9: on two valid inputs whose offending sequences
(the sense primers, the first sequences given to the Tm function)
differ, the failing Tm function produces the *same* result of `design`,
the unwrapped propagated exception — so `design` does not return an
error value carrying the offending sequence and frame offset. -/
theorem design_tm_failure_counterexample :
    design tmFailAll (String.toList "A") (String.toList "G") ctx35 "sense" =
      DesignResult.raised "melting.temp raised" ∧
    design tmFailAll (String.toList "C") (String.toList "G") ctx35 "sense" =
      DesignResult.raised "melting.temp raised" ∧
    String.toList "A" ≠ String.toList "C" := by
  refine ⟨?_, ?_, by decide⟩ <;>
    · rw [design, if_pos (Or.inl rfl), if_neg (by decide)]
      simp [designE, tmFailAll, Bind.bind, Except.bind]

/-- C9 amended: when the external Tm function fails on any evaluated
sequence — either primer or any of the six candidate windows, i.e. the
first failing call among the eight in evaluation order (`evalSeqs`) —
`design` lets that failure propagate uncaught and unchanged: no
wrapping into an error value that carries the offending sequence or
frame offset. -/
theorem design_tm_failure_propagates (temp : TmFun) (s a c : List Char)
    (o : String) (ho : o = "sense" ∨ o = "antisense")
    (hlen : ¬ c.length < 35) (k : Nat)
    (hk : k < (evalSeqs s a c).length) (e : String)
    (hfail : temp ((evalSeqs s a c).getD k []) = Except.error e)
    (hpre : ∀ j, j < k → ∃ q,
      temp ((evalSeqs s a c).getD j []) = Except.ok q) :
    design temp s a c o = DesignResult.raised e := by
  rw [design, if_pos ho, if_neg hlen]
  have hk8 : k < 8 := by simpa [evalSeqs] using hk
  interval_cases k
  · simp [evalSeqs] at hfail
    simp [designE, hfail, Bind.bind, Except.bind]
  · obtain ⟨t0, h0⟩ := hpre 0 (by omega)
    simp [evalSeqs] at hfail h0
    simp [designE, h0, hfail, Bind.bind, Except.bind]
  · obtain ⟨t0, h0⟩ := hpre 0 (by omega)
    obtain ⟨t1, h1⟩ := hpre 1 (by omega)
    simp [evalSeqs] at hfail h0 h1
    simp [designE, masterLists, mkCandidates, h0, h1, hfail, Bind.bind,
          Except.bind]
  · obtain ⟨t0, h0⟩ := hpre 0 (by omega)
    obtain ⟨t1, h1⟩ := hpre 1 (by omega)
    obtain ⟨t2, h2⟩ := hpre 2 (by omega)
    simp [evalSeqs] at hfail h0 h1 h2
    simp [designE, masterLists, mkCandidates, h0, h1, h2, hfail, Bind.bind,
          Except.bind]
  · obtain ⟨t0, h0⟩ := hpre 0 (by omega)
    obtain ⟨t1, h1⟩ := hpre 1 (by omega)
    obtain ⟨t2, h2⟩ := hpre 2 (by omega)
    obtain ⟨t3, h3⟩ := hpre 3 (by omega)
    simp [evalSeqs] at hfail h0 h1 h2 h3
    simp [designE, masterLists, mkCandidates, h0, h1, h2, h3, hfail,
          Bind.bind, Except.bind, pure, Except.pure]
  · obtain ⟨t0, h0⟩ := hpre 0 (by omega)
    obtain ⟨t1, h1⟩ := hpre 1 (by omega)
    obtain ⟨t2, h2⟩ := hpre 2 (by omega)
    obtain ⟨t3, h3⟩ := hpre 3 (by omega)
    obtain ⟨t4, h4⟩ := hpre 4 (by omega)
    simp [evalSeqs] at hfail h0 h1 h2 h3 h4
    simp [designE, masterLists, mkCandidates, h0, h1, h2, h3, h4, hfail,
          Bind.bind, Except.bind, pure, Except.pure]
  · obtain ⟨t0, h0⟩ := hpre 0 (by omega)
    obtain ⟨t1, h1⟩ := hpre 1 (by omega)
    obtain ⟨t2, h2⟩ := hpre 2 (by omega)
    obtain ⟨t3, h3⟩ := hpre 3 (by omega)
    obtain ⟨t4, h4⟩ := hpre 4 (by omega)
    obtain ⟨t5, h5⟩ := hpre 5 (by omega)
    simp [evalSeqs] at hfail h0 h1 h2 h3 h4 h5
    simp [designE, masterLists, mkCandidates, h0, h1, h2, h3, h4, h5, hfail,
          Bind.bind, Except.bind, pure, Except.pure]
  · obtain ⟨t0, h0⟩ := hpre 0 (by omega)
    obtain ⟨t1, h1⟩ := hpre 1 (by omega)
    obtain ⟨t2, h2⟩ := hpre 2 (by omega)
    obtain ⟨t3, h3⟩ := hpre 3 (by omega)
    obtain ⟨t4, h4⟩ := hpre 4 (by omega)
    obtain ⟨t5, h5⟩ := hpre 5 (by omega)
    obtain ⟨t6, h6⟩ := hpre 6 (by omega)
    simp [evalSeqs] at hfail h0 h1 h2 h3 h4 h5 h6
    simp [designE, masterLists, mkCandidates, h0, h1, h2, h3, h4, h5, h6,
          hfail, Bind.bind, Except.bind, pure, Except.pure]

/-- Witness for the amended C9: a Tm function succeeding on the length-1
primers and failing on the 20-base windows, so the first failing call is
the third evaluated sequence (the frame-0 reverse-complement window). -/
theorem design_tm_failure_propagates_witness :
    design tempSel (String.toList "A") (String.toList "G") ctx35 "sense" =
      DesignResult.raised "melting.temp raised" :=
  design_tm_failure_propagates tempSel (String.toList "A")
    (String.toList "G") ctx35 "sense" (Or.inl rfl) (by decide) 2
    (by decide) "melting.temp raised" (by decide)
    (by
      intro j hj
      interval_cases j
      · exact ⟨50, by decide⟩
      · exact ⟨50, by decide⟩)

/-- C10: either validation failure makes `design` print a message and
return Python `None` (modelled `printedNone`), not an error value; and
the orientation check comes first, so an input invalid in both respects
reports only the orientation failure. -/
theorem design_validation_returns_none (temp : TmFun) (s a c : List Char)
    (o : String) :
    (¬(o = "sense" ∨ o = "antisense") →
      design temp s a c o = DesignResult.printedNone orient_error) ∧
    ((o = "sense" ∨ o = "antisense") → c.length < 35 →
      design temp s a c o = DesignResult.printedNone size_error) ∧
    (¬(o = "sense" ∨ o = "antisense") → c.length < 35 →
      design temp s a c o = DesignResult.printedNone orient_error) := by
  refine ⟨fun h => ?_, fun ho hl => ?_, fun h _ => ?_⟩
  · rw [design, if_neg h]
  · rw [design, if_pos ho, if_pos hl]
  · rw [design, if_neg h]

/-- Witness for C10: a context of length 1 (far below 35) with an
invalid and a valid orientation. -/
theorem design_validation_returns_none_witness :
    design temp0 (String.toList "A") (String.toList "G")
        (String.toList "A") "sideways" =
      DesignResult.printedNone orient_error ∧
    design temp0 (String.toList "A") (String.toList "G")
        (String.toList "A") "sense" =
      DesignResult.printedNone size_error :=
  ⟨(design_validation_returns_none temp0 (String.toList "A")
      (String.toList "G") (String.toList "A") "sideways").2.2 (by decide)
      (by decide),
   (design_validation_returns_none temp0 (String.toList "A")
      (String.toList "G") (String.toList "A") "sense").2.1 (Or.inl rfl)
      (by decide)⟩

end Headloop
